import Mathlib

/-!
# Verification of the Pantree purchase-frequency analysis core

Shallow embedding of the statistical frequency-analysis engine of the
Pantree repository and proofs of the specified properties.

Sources embedded here:
* `src/data/analyze_customer_frequency.py` — `calculate_item_statistics`
  (the interval statistics engine) and the per-customer aggregation /
  recommendation loop of `analyze_customer_frequency`.
* `src/pantree/orchestrator.py` — `_run_frequency_analysis` (per-customer
  grouping and reference-date computation).
* `src/data/recommendations/sagemaker_client.py` — `_enrich_recommendation`
  (cadence band mapping with representative interval days).

Modelling conventions:
* A `datetime` is modelled as an integer number of days (`ℤ`); Python
  `(a - b).days` on midnight-aligned dates is exact integer subtraction.
* Python float arithmetic is modelled as exact real arithmetic (`ℝ`);
  `statistics.mean` / `statistics.stdev` are the textbook formulas the
  Python library computes (sample standard deviation with an exact square
  root).
* Python's built-in `round(x, ndigits)` rounds half to even; it is
  modelled by `roundHalfEven` below on the ideal real value.
* Python's `sorted` / `list.sort` are stable sorts; they are modelled by
  `List.mergeSort`, which is stable and comes with stability lemmas.
-/

/-- The Bool-valued ascending order on dates used for sorting. -/
def dateLE (a b : ℤ) : Bool := decide (a ≤ b)

/-- `sorted_dates = sorted(dates)` — Python's stable ascending sort. -/
def sortDates (dates : List ℤ) : List ℤ := dates.mergeSort dateLE

/-- Consecutive differences of a list:
`[(l[i] - l[i-1]) for i in range(1, len(l))]`. -/
def intervalsAux : List ℤ → List ℤ
  | a :: b :: rest => (b - a) :: intervalsAux (b :: rest)
  | _ => []

/-- `intervals = [(sorted_dates[i] - sorted_dates[i-1]).days for i in ...]`. -/
def intervals (dates : List ℤ) : List ℤ := intervalsAux (sortDates dates)

/-- `statistics.mean` of an integer list, as a real. -/
noncomputable def mean (ys : List ℤ) : ℝ := (ys.sum : ℝ) / ys.length

/-- `statistics.stdev`: sample standard deviation
`sqrt(sum((x - mean)^2) / (n - 1))`. -/
noncomputable def sampleStdDev (ys : List ℤ) : ℝ :=
  Real.sqrt ((ys.map (fun v => ((v : ℝ) - mean ys) ^ 2)).sum / ((ys.length : ℝ) - 1))

/-- `avg_interval = statistics.mean(intervals)`. -/
noncomputable def avgInterval (dates : List ℤ) : ℝ := mean (intervals dates)

/-- `std_dev = statistics.stdev(intervals) if len(intervals) > 1 else 0`. -/
noncomputable def stdDevOf (dates : List ℤ) : ℝ :=
  if 1 < (intervals dates).length then sampleStdDev (intervals dates) else 0

/-- `coefficient_of_variation = (std_dev / avg_interval * 100) if avg_interval > 0 else 100`. -/
noncomputable def coefficientOfVariation (dates : List ℤ) : ℝ :=
  if 0 < avgInterval dates then stdDevOf dates / avgInterval dates * 100 else 100

/-- `consistency_score = max(0, min(100, 100 - coefficient_of_variation))`. -/
noncomputable def consistencyScore (dates : List ℤ) : ℝ :=
  max 0 (min 100 (100 - coefficientOfVariation dates))

/-- `x_mean = sum(range(n)) / n`. -/
noncomputable def xMean (n : ℕ) : ℝ := (∑ i in Finset.range n, (i : ℝ)) / n

/-- `intervals[i]`, as a real (index in range in all uses). -/
noncomputable def yval (ys : List ℤ) (i : ℕ) : ℝ := ((ys.getD i 0 : ℤ) : ℝ)

/-- `numerator = sum((x[i] - x_mean) * (intervals[i] - y_mean) for i in range(n))`. -/
noncomputable def trendNum (ys : List ℤ) : ℝ :=
  ∑ i in Finset.range ys.length, ((i : ℝ) - xMean ys.length) * (yval ys i - mean ys)

/-- `denominator = sum((x[i] - x_mean) ** 2 for i in range(n))`. -/
noncomputable def trendDen (ys : List ℤ) : ℝ :=
  ∑ i in Finset.range ys.length, ((i : ℝ) - xMean ys.length) ^ 2

/-- `trend_slope = numerator / denominator if denominator != 0 else 0`,
computed only when `len(intervals) >= 3` (else `trend_slope = 0`). -/
noncomputable def trendSlope (dates : List ℤ) : ℝ :=
  if 3 ≤ (intervals dates).length then
    (if trendDen (intervals dates) ≠ 0 then
      trendNum (intervals dates) / trendDen (intervals dates) else 0)
  else 0

/-- The trend classification strings of `calculate_item_statistics`. -/
noncomputable def trendLabel (dates : List ℤ) : String :=
  if 3 ≤ (intervals dates).length then
    (if trendSlope dates < -2 then "increasing frequency"
     else if 2 < trendSlope dates then "decreasing frequency"
     else "stable")
  else "insufficient data"

/-- `sorted_dates[-1]` (all uses have a nonempty list). -/
def lastDate (dates : List ℤ) : ℤ := (sortDates dates).getLastD 0

/-- `days_since_last = (current_date - sorted_dates[-1]).days`. -/
def daysSinceLast (dates : List ℤ) (current : ℤ) : ℤ := current - lastDate dates

/-- `recency_score = max(0, 100 - (days_since_last / 30 * 20))`. -/
noncomputable def recencyScore (dates : List ℤ) (current : ℤ) : ℝ :=
  max 0 (100 - ((daysSinceLast dates current : ℝ) / 30 * 20))

/-- `purchase_count_score = min(100, (len(dates) / 10) * 100)`. -/
noncomputable def purchaseCountScore (dates : List ℤ) : ℝ :=
  min 100 (((dates.length : ℝ) / 10) * 100)

/-- `trend_stability_score = max(0, 100 - abs(trend_slope) * 5)`. -/
noncomputable def trendStabilityScore (dates : List ℤ) : ℝ :=
  max 0 (100 - |trendSlope dates| * 5)

/-- The full-precision weighted confidence of `calculate_item_statistics`:
`consistency_score * 0.35 + recency_score * 0.25 + purchase_count_score * 0.25
 + trend_stability_score * 0.15`. -/
noncomputable def confidence (dates : List ℤ) (current : ℤ) : ℝ :=
  consistencyScore dates * 0.35 + recencyScore dates current * 0.25 +
    purchaseCountScore dates * 0.25 + trendStabilityScore dates * 0.15

/-- Round-half-to-even to the nearest integer, the rounding used by Python's
built-in `round` (on the ideal real value). -/
noncomputable def roundHalfEven (t : ℝ) : ℤ :=
  if Int.fract t = 1 / 2 then (if Even ⌊t⌋ then ⌊t⌋ else ⌊t⌋ + 1) else round t

/-- Python `round(x, 1)`. -/
noncomputable def round1 (x : ℝ) : ℝ := (roundHalfEven (x * 10) : ℝ) / 10

/-- Python `round(x, 2)`. -/
noncomputable def round2 (x : ℝ) : ℝ := (roundHalfEven (x * 100) : ℝ) / 100

/-- The dictionary returned by `calculate_item_statistics`
(field names as in the source). -/
structure ItemStats where
  count : ℕ
  avg_interval : ℝ
  std_dev : ℝ
  coefficient_of_variation : ℝ
  consistency_score : ℝ
  trend : String
  trend_slope : ℝ
  days_since_last : ℤ
  recency_score : ℝ
  confidence : ℝ

/-- `calculate_item_statistics(dates, current_date)` of
`src/data/analyze_customer_frequency.py`: returns `None` for fewer than two
dates, otherwise the statistics dictionary with rounded presentation values. -/
noncomputable def calculate_item_statistics (dates : List ℤ) (current_date : ℤ) :
    Option ItemStats :=
  if dates.length < 2 then none
  else some
    { count := dates.length
      avg_interval := round1 (avgInterval dates)
      std_dev := round1 (stdDevOf dates)
      coefficient_of_variation := round1 (coefficientOfVariation dates)
      consistency_score := round1 (consistencyScore dates)
      trend := trendLabel dates
      trend_slope := round2 (trendSlope dates)
      days_since_last := daysSinceLast dates current_date
      recency_score := round1 (recencyScore dates current_date)
      confidence := round1 (confidence dates current_date) }

/-- The cadence suggestion of `analyze_customer_frequency`
(`suggestion = "monthly"; if interval <= 8: "weekly" elif <= 16: "bi-weekly"
elif <= 24: "every 3 weeks"`). -/
noncomputable def suggestion (interval : ℝ) : String :=
  if interval ≤ 8 then "weekly"
  else if interval ≤ 16 then "bi-weekly"
  else if interval ≤ 24 then "every 3 weeks"
  else "monthly"

/-- The subscription frequency mapping of `_enrich_recommendation` in
`src/data/recommendations/sagemaker_client.py`: label and interval days. -/
noncomputable def enrichFrequency (avg_interval : ℝ) : String × ℤ :=
  if avg_interval ≤ 8 then ("weekly", 7)
  else if avg_interval ≤ 16 then ("bi-weekly", 14)
  else if avg_interval ≤ 24 then ("tri-weekly", 21)
  else ("monthly", 30)

/-- One customer's filtering loop of `analyze_customer_frequency`
(also `_run_frequency_analysis`): keep item groups with at least
`min_purchases` dates whose statistics exist and whose (rounded, stored)
confidence reaches `min_confidence`, in the order groups are listed. -/
noncomputable def recurringItems (groups : List (String × List ℤ))
    (min_purchases : ℕ) (min_confidence : ℝ) (ref : ℤ) :
    List (String × ItemStats) :=
  groups.filterMap (fun g =>
    if min_purchases ≤ g.2.length then
      match calculate_item_statistics g.2 ref with
      | some s => if min_confidence ≤ s.confidence then some (g.1, s) else none
      | none => none
    else none)

/-- The Bool-valued sort order of
`recurring_items.sort(key=lambda x: x['confidence'], reverse=True)`:
descending by stored confidence, stable on ties. -/
noncomputable def confDesc (a b : String × ItemStats) : Bool :=
  decide (b.2.confidence ≤ a.2.confidence)

/-- The sorted recommendation list (before display truncation). -/
noncomputable def sortedRecurringItems (groups : List (String × List ℤ))
    (min_purchases : ℕ) (min_confidence : ℝ) (ref : ℤ) :
    List (String × ItemStats) :=
  (recurringItems groups min_purchases min_confidence ref).mergeSort confDesc

/-- `recurring_items[:10]` — the top recommendations shown per customer. -/
noncomputable def topRecommendations (groups : List (String × List ℤ))
    (min_purchases : ℕ) (min_confidence : ℝ) (ref : ℤ) :
    List (String × ItemStats) :=
  (sortedRecurringItems groups min_purchases min_confidence ref).take 10

/-- Python `max` over a nonempty list (as used on date lists). -/
def maxDate : List ℤ → Option ℤ
  | [] => none
  | d :: ds => some (ds.foldl max d)

/-- `reference_date = max(all_dates)` of `_run_frequency_analysis`
(`src/pantree/orchestrator.py`): an event is an (item name, date) pair and all
of the one customer's event dates are considered (`None` when there are no
events; the source falls back to `datetime.now()` there). -/
def referenceDate? (events : List (String × ℤ)) : Option ℤ :=
  maxDate (events.map Prod.snd)

/-- `most_recent_date` of `analyze_customer_frequency`: the maximum date over
the events of *all* customers in the dataset. -/
def batchReferenceDate? (customers : List (String × List (String × ℤ))) : Option ℤ :=
  maxDate (((customers.map Prod.snd).flatten).map Prod.snd)

/-- One step of the `defaultdict(list)` grouping: append a date to the entry
of `nm`, keeping first-seen key order (Python dict insertion order). -/
def addEvent (groups : List (String × List ℤ)) (nm : String) (d : ℤ) :
    List (String × List ℤ) :=
  match groups with
  | [] => [(nm, [d])]
  | (k, ds) :: rest =>
    if k = nm then (k, ds ++ [d]) :: rest else (k, ds) :: addEvent rest nm d

/-- Grouping of a customer's purchase events by exact item name, dates kept in
encounter order, groups in first-seen order. -/
def groupEvents (events : List (String × ℤ)) : List (String × List ℤ) :=
  events.foldl (fun gs e => addEvent gs e.1 e.2) []

/-- The per-customer analysis of `analyze_customer_frequency`: every
customer's items are grouped and filtered against the *dataset-global*
`most_recent_date`. (Printing and the `limit_customers` display cap are
omitted; each customer's computed recommendation list is returned.) -/
noncomputable def analyzeCustomerFrequency
    (customers : List (String × List (String × ℤ)))
    (min_purchases : ℕ) (min_confidence : ℝ) :
    List (String × List (String × ItemStats)) :=
  let ref := (batchReferenceDate? customers).getD 0
  customers.map (fun c =>
    (c.1, topRecommendations (groupEvents c.2) min_purchases min_confidence ref))

/-- Modelled from the spec ("fit an ordinary least-squares line of
`intervals[i]` against index `i`"): the sum of squared residuals of the line
`a + b * i` on the interval values — `trendSlope` is claimed to minimise it. -/
noncomputable def sse (ys : List ℤ) (a b : ℝ) : ℝ :=
  ∑ i in Finset.range ys.length, (yval ys i - (a + b * i)) ^ 2

/-! ## Helper lemmas: sorting -/

lemma dateLE_trans (a b c : ℤ) (hab : dateLE a b = true) (hbc : dateLE b c = true) :
    dateLE a c = true := by
  simp only [dateLE, decide_eq_true_eq] at *
  exact le_trans hab hbc

lemma dateLE_total (a b : ℤ) : (dateLE a b || dateLE b a) = true := by
  simp only [dateLE, Bool.or_eq_true, decide_eq_true_eq]
  exact le_total a b

lemma sortDates_perm (l : List ℤ) : (sortDates l).Perm l :=
  List.mergeSort_perm l dateLE

lemma sortDates_sorted (l : List ℤ) : (sortDates l).Sorted (· ≤ ·) := by
  have h := List.sorted_mergeSort dateLE_trans dateLE_total l
  exact h.imp (fun hab => by simpa [dateLE] using hab)

lemma sortDates_eq_of_perm {l m : List ℤ} (h : l.Perm m) :
    sortDates l = sortDates m := by
  refine List.eq_of_perm_of_sorted ?_ (sortDates_sorted l) (sortDates_sorted m)
  exact ((sortDates_perm l).trans h).trans (sortDates_perm m).symm

lemma sortDates_of_sorted {l : List ℤ} (h : l.Sorted (· ≤ ·)) : sortDates l = l :=
  List.mergeSort_of_sorted (h.imp (fun hab => by simpa [dateLE] using hab))

lemma sortDates_length (l : List ℤ) : (sortDates l).length = l.length :=
  (sortDates_perm l).length_eq

lemma getLastD_mem : ∀ (l : List ℤ) (d : ℤ), l ≠ [] → l.getLastD d ∈ l
  | [], _, h => absurd rfl h
  | [a], d, _ => by simp [List.getLastD]
  | a :: b :: t, d, _ => by
    have ih := getLastD_mem (b :: t) d (by simp)
    simp only [List.getLastD]
    exact List.mem_cons_of_mem _ ih

lemma lastDate_mem {dates : List ℤ} (h : dates ≠ []) : lastDate dates ∈ dates := by
  have hne : sortDates dates ≠ [] := by
    intro hc
    have := sortDates_length dates
    rw [hc] at this
    exact h (List.eq_nil_of_length_eq_zero this.symm)
  have hmem := getLastD_mem (sortDates dates) 0 hne
  exact (sortDates_perm dates).mem_iff.mp hmem

lemma intervalsAux_length : ∀ l : List ℤ, (intervalsAux l).length = l.length - 1
  | [] => rfl
  | [_] => rfl
  | a :: b :: t => by
    have ih := intervalsAux_length (b :: t)
    simp only [intervalsAux, List.length_cons] at *
    omega

lemma intervals_length (dates : List ℤ) :
    (intervals dates).length = dates.length - 1 := by
  rw [intervals, intervalsAux_length, sortDates_length]

/-! ## Helper lemmas: `maxDate` -/

lemma foldl_max_le_iff : ∀ (l : List ℤ) (a x : ℤ),
    l.foldl max a ≤ x ↔ a ≤ x ∧ ∀ y ∈ l, y ≤ x
  | [], a, x => by simp
  | b :: t, a, x => by
    have ih := foldl_max_le_iff t (max a b) x
    simp only [List.foldl_cons, ih, max_le_iff, List.mem_cons]
    constructor
    · rintro ⟨⟨ha, hb⟩, ht⟩
      exact ⟨ha, fun y hy => hy.elim (fun h => h ▸ hb) (ht y)⟩
    · rintro ⟨ha, h⟩
      exact ⟨⟨ha, h b (Or.inl rfl)⟩, fun y hy => h y (Or.inr hy)⟩

lemma foldl_max_mem : ∀ (l : List ℤ) (a : ℤ), l.foldl max a ∈ a :: l
  | [], a => by simp
  | b :: t, a => by
    have ih := foldl_max_mem t (max a b)
    simp only [List.foldl_cons]
    rcases List.mem_cons.mp ih with h | h
    · rw [h]
      rcases max_choice a b with hm | hm <;> rw [hm]
      · exact List.mem_cons_self a _
      · exact List.mem_cons_of_mem _ (List.mem_cons_self b _)
    · exact List.mem_cons_of_mem _ (List.mem_cons_of_mem _ h)

lemma maxDate_spec {l : List ℤ} {m : ℤ} (h : maxDate l = some m) :
    m ∈ l ∧ ∀ d ∈ l, d ≤ m := by
  match l, h with
  | d :: ds, h =>
    have hm : ds.foldl max d = m := by simpa [maxDate] using h
    constructor
    · have := foldl_max_mem ds d
      rw [hm] at this
      exact this
    · intro x hx
      have hle := (foldl_max_le_iff ds d (ds.foldl max d)).mp le_rfl
      rw [hm] at hle
      rcases List.mem_cons.mp hx with hx | hx
      · exact hx ▸ hle.1
      · exact hle.2 x hx

lemma maxDate_isSome {l : List ℤ} (h : l ≠ []) : ∃ m, maxDate l = some m := by
  match l with
  | d :: ds => exact ⟨ds.foldl max d, rfl⟩

/-! ## Helper lemmas: rounding -/

lemma roundHalfEven_of_bounds (t : ℝ) (k : ℤ) (h1 : (k : ℝ) - 1 / 2 < t)
    (h2 : t < (k : ℝ) + 1 / 2) : roundHalfEven t = k := by
  have hfr : Int.fract t ≠ 1 / 2 := by
    intro hf
    have ht : t = (⌊t⌋ : ℝ) + 1 / 2 := by
      have := Int.fract_add_floor t
      rw [hf] at this
      linarith
    rw [ht] at h1 h2
    have h3 : (k : ℝ) - 1 < (⌊t⌋ : ℝ) := by linarith
    have h4 : ((⌊t⌋ : ℝ)) < k := by linarith
    have h5 : k - 1 < ⌊t⌋ := by exact_mod_cast h3
    have h6 : ⌊t⌋ < k := by exact_mod_cast h4
    omega
  rw [roundHalfEven, if_neg hfr, round_eq, Int.floor_eq_iff]
  constructor <;> [linarith; linarith]

lemma round1_eq_of (x : ℝ) (k : ℤ) (h1 : (k : ℝ) - 1 / 2 < x * 10)
    (h2 : x * 10 < (k : ℝ) + 1 / 2) : round1 x = (k : ℝ) / 10 := by
  rw [round1, roundHalfEven_of_bounds (x * 10) k h1 h2]

lemma abs_roundHalfEven_sub (t : ℝ) : |(roundHalfEven t : ℝ) - t| ≤ 1 / 2 := by
  rw [roundHalfEven]
  by_cases hfr : Int.fract t = 1 / 2
  · have ht : t = (⌊t⌋ : ℝ) + 1 / 2 := by
      have := Int.fract_add_floor t
      rw [hfr] at this
      linarith
    rw [if_pos hfr]
    by_cases he : Even ⌊t⌋
    · rw [if_pos he, abs_le]
      constructor <;> linarith
    · rw [if_neg he, abs_le]
      push_cast
      constructor <;> linarith
  · rw [if_neg hfr]
    have := abs_sub_round t
    rw [abs_sub_comm] at this
    exact this

lemma abs_round1_sub (x : ℝ) : |round1 x - x| ≤ 1 / 20 := by
  rw [round1]
  have h := abs_roundHalfEven_sub (x * 10)
  have key : (roundHalfEven (x * 10) : ℝ) / 10 - x
      = ((roundHalfEven (x * 10) : ℝ) - x * 10) / 10 := by ring
  rw [key, abs_div, abs_of_pos (show (0:ℝ) < 10 by norm_num)]
  linarith

lemma roundHalfEven_nonneg {t : ℝ} (h : 0 ≤ t) : 0 ≤ roundHalfEven t := by
  rw [roundHalfEven]
  by_cases hfr : Int.fract t = 1 / 2
  · have hf : 0 ≤ ⌊t⌋ := Int.floor_nonneg.mpr h
    by_cases he : Even ⌊t⌋
    · rw [if_pos hfr, if_pos he]; exact hf
    · rw [if_pos hfr, if_neg he]; omega
  · rw [if_neg hfr, round_eq]
    rw [Int.le_floor]
    push_cast
    linarith

lemma roundHalfEven_le {t : ℝ} {B : ℤ} (h : t ≤ (B : ℝ)) : roundHalfEven t ≤ B := by
  rw [roundHalfEven]
  by_cases hfr : Int.fract t = 1 / 2
  · have ht : t = (⌊t⌋ : ℝ) + 1 / 2 := by
      have := Int.fract_add_floor t
      rw [hfr] at this
      linarith
    have hlt : (⌊t⌋ : ℝ) < B := by rw [ht] at h; linarith
    have hfl : ⌊t⌋ < B := by exact_mod_cast hlt
    by_cases he : Even ⌊t⌋
    · rw [if_pos hfr, if_pos he]; omega
    · rw [if_pos hfr, if_neg he]; omega
  · rw [if_neg hfr, round_eq]
    have : ⌊t + 1 / 2⌋ ≤ ⌊(B : ℝ) + 1 / 2⌋ := Int.floor_le_floor (by linarith)
    have hB : ⌊(B : ℝ) + 1 / 2⌋ = B := by
      rw [Int.floor_eq_iff]
      constructor
      · linarith
      · linarith
    omega

lemma round1_mem_Icc {x : ℝ} (h0 : 0 ≤ x) (h100 : x ≤ 100) :
    0 ≤ round1 x ∧ round1 x ≤ 100 := by
  have hnn : 0 ≤ roundHalfEven (x * 10) := roundHalfEven_nonneg (by linarith)
  have hle : roundHalfEven (x * 10) ≤ (1000 : ℤ) :=
    roundHalfEven_le (by push_cast; linarith)
  constructor
  · rw [round1]
    positivity
  · rw [round1]
    have : ((roundHalfEven (x * 10) : ℝ)) ≤ 1000 := by exact_mod_cast hle
    linarith

/-! ## Helper lemmas: the statistics record -/

lemma calculate_eq_some {dates : List ℤ} (ref : ℤ) (h2 : 2 ≤ dates.length) :
    calculate_item_statistics dates ref = some
      { count := dates.length
        avg_interval := round1 (avgInterval dates)
        std_dev := round1 (stdDevOf dates)
        coefficient_of_variation := round1 (coefficientOfVariation dates)
        consistency_score := round1 (consistencyScore dates)
        trend := trendLabel dates
        trend_slope := round2 (trendSlope dates)
        days_since_last := daysSinceLast dates ref
        recency_score := round1 (recencyScore dates ref)
        confidence := round1 (confidence dates ref) } := by
  rw [calculate_item_statistics, if_neg (by omega)]

/-! ## Helper lemmas: score bounds -/

lemma consistencyScore_mem (dates : List ℤ) :
    0 ≤ consistencyScore dates ∧ consistencyScore dates ≤ 100 := by
  rw [consistencyScore]
  constructor
  · exact le_max_left 0 _
  · exact max_le (by norm_num) (le_trans (min_le_left _ _) le_rfl)

lemma purchaseCountScore_mem (dates : List ℤ) :
    0 ≤ purchaseCountScore dates ∧ purchaseCountScore dates ≤ 100 := by
  rw [purchaseCountScore]
  constructor
  · apply le_min (by norm_num)
    positivity
  · exact min_le_left _ _

lemma trendStabilityScore_mem (dates : List ℤ) :
    0 ≤ trendStabilityScore dates ∧ trendStabilityScore dates ≤ 100 := by
  rw [trendStabilityScore]
  constructor
  · exact le_max_left 0 _
  · apply max_le (by norm_num)
    have : 0 ≤ |trendSlope dates| * 5 := by positivity
    linarith

lemma recencyScore_nonneg (dates : List ℤ) (current : ℤ) :
    0 ≤ recencyScore dates current := le_max_left 0 _

lemma recencyScore_le_of_nonneg {dates : List ℤ} {current : ℤ}
    (h : 0 ≤ daysSinceLast dates current) : recencyScore dates current ≤ 100 := by
  rw [recencyScore]
  apply max_le (by norm_num)
  have : (0 : ℝ) ≤ (daysSinceLast dates current : ℝ) := by exact_mod_cast h
  nlinarith

lemma confidence_mem_of {dates : List ℤ} {current : ℤ}
    (hr : recencyScore dates current ≤ 100) :
    0 ≤ confidence dates current ∧ confidence dates current ≤ 100 := by
  obtain ⟨hc0, hc1⟩ := consistencyScore_mem dates
  obtain ⟨hp0, hp1⟩ := purchaseCountScore_mem dates
  obtain ⟨ht0, ht1⟩ := trendStabilityScore_mem dates
  have hr0 := recencyScore_nonneg dates current
  rw [confidence]
  norm_num
  constructor <;> nlinarith

/-! ## Helper lemmas: least squares -/

lemma sum_range_yval : ∀ ys : List ℤ,
    ∑ i in Finset.range ys.length, yval ys i = (ys.sum : ℝ)
  | [] => by simp
  | a :: t => by
    have ih := sum_range_yval t
    rw [List.length_cons, Finset.sum_range_succ']
    have hsucc : ∀ i, yval (a :: t) (i + 1) = yval t i := by
      intro i
      simp [yval]
    have hzero : yval (a :: t) 0 = (a : ℝ) := by simp [yval]
    rw [Finset.sum_congr rfl (fun i _ => hsucc i), hzero, ih, List.sum_cons]
    push_cast
    ring

lemma sum_x_dev {n : ℕ} (hn : n ≠ 0) :
    ∑ i in Finset.range n, ((i : ℝ) - xMean n) = 0 := by
  rw [Finset.sum_sub_distrib, Finset.sum_const, Finset.card_range, nsmul_eq_mul,
    xMean]
  have hne : (n : ℝ) ≠ 0 := Nat.cast_ne_zero.mpr hn
  field_simp

lemma sum_y_dev {ys : List ℤ} (hn : ys.length ≠ 0) :
    ∑ i in Finset.range ys.length, (yval ys i - mean ys) = 0 := by
  rw [Finset.sum_sub_distrib, Finset.sum_const, Finset.card_range, nsmul_eq_mul,
    sum_range_yval, mean]
  have hne : (ys.length : ℝ) ≠ 0 := Nat.cast_ne_zero.mpr hn
  field_simp

lemma sse_expand (ys : List ℤ) (hn : ys.length ≠ 0) (a b : ℝ) :
    sse ys a b = (∑ i in Finset.range ys.length, (yval ys i - mean ys) ^ 2)
      - 2 * b * trendNum ys + b ^ 2 * trendDen ys
      + (ys.length : ℝ) * (mean ys - a - b * xMean ys.length) ^ 2 := by
  have expand : ∀ i ∈ Finset.range ys.length, (yval ys i - (a + b * i)) ^ 2
      = (yval ys i - mean ys) ^ 2
        + b ^ 2 * (((i : ℝ) - xMean ys.length) ^ 2)
        + (mean ys - a - b * xMean ys.length) ^ 2
        - 2 * b * (((i : ℝ) - xMean ys.length) * (yval ys i - mean ys))
        + 2 * (mean ys - a - b * xMean ys.length) * (yval ys i - mean ys)
        - 2 * (b * (mean ys - a - b * xMean ys.length)) * ((i : ℝ) - xMean ys.length) := by
    intro i _
    ring
  rw [sse, Finset.sum_congr rfl expand]
  rw [Finset.sum_sub_distrib, Finset.sum_add_distrib, Finset.sum_sub_distrib,
    Finset.sum_add_distrib, Finset.sum_add_distrib]
  rw [← Finset.mul_sum, ← Finset.mul_sum, ← Finset.mul_sum, ← Finset.mul_sum]
  rw [Finset.sum_const, Finset.card_range, nsmul_eq_mul]
  rw [sum_y_dev hn, sum_x_dev hn]
  simp only [trendNum, trendDen]
  ring

lemma trendDen_pos {ys : List ℤ} (h2 : 2 ≤ ys.length) : 0 < trendDen ys := by
  have hnonneg : ∀ i ∈ Finset.range ys.length, (0 : ℝ) ≤ ((i : ℝ) - xMean ys.length) ^ 2 :=
    fun i _ => sq_nonneg _
  rcases lt_or_eq_of_le (Finset.sum_nonneg hnonneg) with h | h
  · exact h
  · exfalso
    have hall := (Finset.sum_eq_zero_iff_of_nonneg hnonneg).mp h.symm
    have h0 : ((0 : ℕ) : ℝ) - xMean ys.length = 0 := by
      have := hall 0 (Finset.mem_range.mpr (by omega))
      exact sq_eq_zero_iff.mp this
    have h1 : ((1 : ℕ) : ℝ) - xMean ys.length = 0 := by
      have := hall 1 (Finset.mem_range.mpr (by omega))
      exact sq_eq_zero_iff.mp this
    rw [Nat.cast_zero] at h0
    rw [Nat.cast_one] at h1
    have : (0 : ℝ) = 1 := by linarith
    norm_num at this

lemma trendSlope_eq {dates : List ℤ} (h3 : 3 ≤ (intervals dates).length) :
    trendSlope dates = trendNum (intervals dates) / trendDen (intervals dates) := by
  rw [trendSlope, if_pos h3, if_pos (ne_of_gt (trendDen_pos (by omega)))]

/-! ## C1 -/

/-- C1: for every date sequence with at least two dates, the full-precision
confidence computed by `calculate_item_statistics` is exactly the weighted sum
`0.35 * consistency + 0.25 * recency + 0.25 * purchase_count + 0.15 *
trend_stability`, the weights sum to `1`, and the stored (returned) confidence
differs from that combination by at most the `0.05` rounding tolerance. -/
theorem C1_confidence_weighted_sum (dates : List ℤ) (ref : ℤ)
    (h2 : 2 ≤ dates.length) :
    confidence dates ref
        = 0.35 * consistencyScore dates + 0.25 * recencyScore dates ref
          + 0.25 * purchaseCountScore dates + 0.15 * trendStabilityScore dates
      ∧ (0.35 + 0.25 + 0.25 + 0.15 : ℝ) = 1
      ∧ ∀ s : ItemStats, calculate_item_statistics dates ref = some s →
          |s.confidence - (0.35 * consistencyScore dates
            + 0.25 * recencyScore dates ref + 0.25 * purchaseCountScore dates
            + 0.15 * trendStabilityScore dates)| ≤ 0.05 := by
  have hcomb : confidence dates ref
      = 0.35 * consistencyScore dates + 0.25 * recencyScore dates ref
        + 0.25 * purchaseCountScore dates + 0.15 * trendStabilityScore dates := by
    rw [confidence]; ring
  refine ⟨hcomb, by norm_num, ?_⟩
  intro s hs
  rw [calculate_eq_some ref h2] at hs
  have hsc : s.confidence = round1 (confidence dates ref) := by
    rw [← Option.some_inj.mp hs]
  rw [hsc, ← hcomb]
  have := abs_round1_sub (confidence dates ref)
  calc |round1 (confidence dates ref) - confidence dates ref| ≤ 1 / 20 := this
    _ = 0.05 := by norm_num

/-- C1 witness: the theorem applied at the concrete input `[0, 7]`, `ref = 7`. -/
theorem C1_witness :
    2 ≤ ([0, 7] : List ℤ).length
      ∧ ((0.35 + 0.25 + 0.25 + 0.15 : ℝ) = 1) := by
  refine ⟨by decide, (C1_confidence_weighted_sum [0, 7] 7 (by decide)).2.1⟩

/-! ## C8 -/

/-- C8: `calculate_item_statistics` guards its degenerate cases instead of
dividing by zero: with at least two dates, a single interval yields
`std_dev = 0`, a non-positive average interval yields a coefficient of
variation of `100` (no division), and only a strictly positive average
interval is divided by. -/
theorem C8_degenerate_guards (dates : List ℤ) (_h2 : 2 ≤ dates.length) :
    ((intervals dates).length = dates.length - 1)
      ∧ ((intervals dates).length = 1 → stdDevOf dates = 0)
      ∧ (¬ 0 < avgInterval dates → coefficientOfVariation dates = 100)
      ∧ (0 < avgInterval dates →
          coefficientOfVariation dates
            = stdDevOf dates / avgInterval dates * 100) := by
  refine ⟨intervals_length dates, ?_, ?_, ?_⟩
  · intro h1
    rw [stdDevOf, if_neg (by omega)]
  · intro hnp
    rw [coefficientOfVariation, if_neg hnp]
  · intro hp
    rw [coefficientOfVariation, if_pos hp]

/-- C8 witness: two same-day purchases — one interval of zero days, so
`avg_interval = 0` and the coefficient of variation falls back to `100`. -/
theorem C8_witness :
    2 ≤ ([5, 5] : List ℤ).length ∧ coefficientOfVariation [5, 5] = 100 := by
  refine ⟨by decide, ?_⟩
  have h := (C8_degenerate_guards [5, 5] (by decide)).2.2.1
  apply h
  have hint : intervals [5, 5] = [0] := by
    rw [intervals, sortDates_of_sorted (by simp)]
    rfl
  rw [avgInterval, hint, mean]
  norm_num

lemma length_of_calculate_eq_some {l : List ℤ} {r : ℤ} {s : ItemStats}
    (h : calculate_item_statistics l r = some s) : 2 ≤ l.length := by
  by_contra hlt
  rw [calculate_item_statistics, if_pos (by omega)] at h
  exact Option.noConfusion h

/-! ## C3 -/

/-- C3: with fewer than two dates `calculate_item_statistics` returns `None`,
and the caller's filter keeps only entries whose group produced statistics
(so in particular only groups with at least two dates). -/
theorem C3_absent_and_excluded (dates : List ℤ) (ref : ℤ)
    (groups : List (String × List ℤ)) (minP : ℕ) (minC : ℝ) :
    (dates.length < 2 → calculate_item_statistics dates ref = none)
      ∧ ∀ e ∈ recurringItems groups minP minC ref,
          ∃ g ∈ groups, g.1 = e.1 ∧ 2 ≤ g.2.length
            ∧ calculate_item_statistics g.2 ref = some e.2 := by
  constructor
  · intro h
    rw [calculate_item_statistics, if_pos h]
  · intro e he
    obtain ⟨g, hg, hfe⟩ := List.mem_filterMap.mp he
    refine ⟨g, hg, ?_⟩
    split at hfe
    · split at hfe
      · rename_i s heq
        split at hfe
        · have he2 : (g.1, s) = e := Option.some_inj.mp hfe
          exact ⟨by rw [← he2], length_of_calculate_eq_some heq,
            by rw [heq, ← he2]⟩
        · exact Option.noConfusion hfe
      · exact Option.noConfusion hfe
    · exact Option.noConfusion hfe

/-- C3 witness: a single purchase yields no statistics. -/
theorem C3_witness : ([5] : List ℤ).length < 2
    ∧ calculate_item_statistics [5] 9 = none :=
  ⟨by decide, (C3_absent_and_excluded [5] 9 [] 0 0).1 (by decide)⟩

/-! ## C9 -/

/-- C9: `calculate_item_statistics` is invariant under permutation of its
input dates (it sorts internally); the purchase count only depends on the
length, which permutations preserve. -/
theorem C9_permutation_invariance (dates dates2 : List ℤ) (ref : ℤ)
    (h : dates.Perm dates2) :
    calculate_item_statistics dates ref = calculate_item_statistics dates2 ref := by
  have hs : sortDates dates = sortDates dates2 := sortDates_eq_of_perm h
  have hl : dates.length = dates2.length := h.length_eq
  have hI : intervals dates = intervals dates2 := by
    rw [intervals, intervals, hs]
  have hLast : lastDate dates = lastDate dates2 := by
    rw [lastDate, lastDate, hs]
  have hAvg : avgInterval dates = avgInterval dates2 := by
    rw [avgInterval, avgInterval, hI]
  have hStd : stdDevOf dates = stdDevOf dates2 := by
    rw [stdDevOf, stdDevOf, hI]
  have hCV : coefficientOfVariation dates = coefficientOfVariation dates2 := by
    rw [coefficientOfVariation, coefficientOfVariation, hAvg, hStd]
  have hCons : consistencyScore dates = consistencyScore dates2 := by
    rw [consistencyScore, consistencyScore, hCV]
  have hSlope : trendSlope dates = trendSlope dates2 := by
    rw [trendSlope, trendSlope, hI]
  have hLabel : trendLabel dates = trendLabel dates2 := by
    rw [trendLabel, trendLabel, hI, hSlope]
  have hDays : daysSinceLast dates ref = daysSinceLast dates2 ref := by
    rw [daysSinceLast, daysSinceLast, hLast]
  have hRec : recencyScore dates ref = recencyScore dates2 ref := by
    rw [recencyScore, recencyScore, hDays]
  have hPcs : purchaseCountScore dates = purchaseCountScore dates2 := by
    rw [purchaseCountScore, purchaseCountScore, hl]
  have hTss : trendStabilityScore dates = trendStabilityScore dates2 := by
    rw [trendStabilityScore, trendStabilityScore, hSlope]
  have hConf : confidence dates ref = confidence dates2 ref := by
    rw [confidence, confidence, hCons, hRec, hPcs, hTss]
  rw [calculate_item_statistics, calculate_item_statistics, hl, hAvg, hStd,
    hCV, hCons, hLabel, hSlope, hDays, hRec, hConf]

/-- C9 witness: the unsorted list `[7, 0]` gives the same statistics as
`[0, 7]`. -/
theorem C9_witness : ([7, 0] : List ℤ).Perm [0, 7]
    ∧ calculate_item_statistics [7, 0] 7 = calculate_item_statistics [0, 7] 7 := by
  have hp : ([7, 0] : List ℤ).Perm [0, 7] := List.Perm.swap 0 7 []
  exact ⟨hp, C9_permutation_invariance [7, 0] [0, 7] 7 hp⟩

/-! ## C4 -/

/-- C4: the cadence mapping is total on non-negative average intervals and
the four inclusive bands are non-overlapping; each band carries the label of
`analyze_customer_frequency` and the representative interval days of
`_enrich_recommendation` (7, 14, 21, 30). -/
theorem C4_cadence_bands (x : ℝ) (_h0 : 0 ≤ x) :
    (x ≤ 8 ∨ (8 < x ∧ x ≤ 16) ∨ (16 < x ∧ x ≤ 24) ∨ 24 < x)
      ∧ (x ≤ 8 → suggestion x = "weekly" ∧ enrichFrequency x = ("weekly", 7))
      ∧ (8 < x ∧ x ≤ 16 →
          suggestion x = "bi-weekly" ∧ (enrichFrequency x).2 = 14)
      ∧ (16 < x ∧ x ≤ 24 →
          suggestion x = "every 3 weeks" ∧ (enrichFrequency x).2 = 21)
      ∧ (24 < x → suggestion x = "monthly" ∧ (enrichFrequency x).2 = 30)
      ∧ ¬(x ≤ 8 ∧ 8 < x) ∧ ¬(x ≤ 16 ∧ 16 < x) ∧ ¬(x ≤ 24 ∧ 24 < x) := by
  refine ⟨?_, ?_, ?_, ?_, ?_, ?_, ?_, ?_⟩
  · by_cases h8 : x ≤ 8
    · exact Or.inl h8
    · by_cases h16 : x ≤ 16
      · exact Or.inr (Or.inl ⟨by linarith, h16⟩)
      · by_cases h24 : x ≤ 24
        · exact Or.inr (Or.inr (Or.inl ⟨by linarith, h24⟩))
        · exact Or.inr (Or.inr (Or.inr (by linarith)))
  · intro h8
    rw [suggestion, if_pos h8, enrichFrequency, if_pos h8]
    exact ⟨rfl, rfl⟩
  · rintro ⟨h8, h16⟩
    rw [suggestion, if_neg (by linarith), if_pos h16,
      enrichFrequency, if_neg (by linarith), if_pos h16]
    exact ⟨rfl, rfl⟩
  · rintro ⟨h16, h24⟩
    rw [suggestion, if_neg (by linarith), if_neg (by linarith), if_pos h24,
      enrichFrequency, if_neg (by linarith), if_neg (by linarith), if_pos h24]
    exact ⟨rfl, rfl⟩
  · intro h24
    rw [suggestion, if_neg (by linarith), if_neg (by linarith),
      if_neg (by linarith), enrichFrequency, if_neg (by linarith),
      if_neg (by linarith), if_neg (by linarith)]
    exact ⟨rfl, rfl⟩
  · rintro ⟨h1, h2⟩
    linarith
  · rintro ⟨h1, h2⟩
    linarith
  · rintro ⟨h1, h2⟩
    linarith

/-- C4 witness: a seven-day average interval is in the weekly band. -/
theorem C4_witness : (0 : ℝ) ≤ 7 ∧ suggestion 7 = "weekly" := by
  refine ⟨by norm_num, ?_⟩
  have h := (C4_cadence_bands 7 (by norm_num)).2.1 (by norm_num)
  exact h.1

/-! ## C2 -/

/-- C2 counterexample: with reference date `-30` (before the last purchase of
`[0, 1]`), `recency_score` exceeds 100 — both the full-precision score and
the stored rounded one — because the source has no upper clamp on
`100 - (days_since_last / 30 * 20)` when `days_since_last` is negative. -/
theorem C2_counterexample :
    2 ≤ ([0, 1] : List ℤ).length
      ∧ 100 < recencyScore [0, 1] (-30)
      ∧ (calculate_item_statistics [0, 1] (-30)).map ItemStats.recency_score
          = some (1207 / 10 : ℝ)
      ∧ (100 : ℝ) < 1207 / 10 := by
  have hsort : sortDates [0, 1] = [0, 1] := sortDates_of_sorted (by decide)
  have hlast : lastDate [0, 1] = 1 := by
    rw [lastDate, hsort]
    rfl
  have hdays : daysSinceLast [0, 1] (-30) = -31 := by
    rw [daysSinceLast, hlast]
    norm_num
  have hrec : recencyScore [0, 1] (-30) = 362 / 3 := by
    rw [recencyScore, hdays]
    have hz : (100 : ℝ) - ((-31 : ℤ) : ℝ) / 30 * 20 = 362 / 3 := by
      push_cast
      norm_num
    rw [hz, max_eq_right (by norm_num)]
  refine ⟨by decide, by rw [hrec]; norm_num, ?_, by norm_num⟩
  rw [calculate_eq_some (-30) (by decide), Option.map_some', hrec]
  have hr1 : round1 ((362 : ℝ) / 3) = ((1207 : ℤ) : ℝ) / 10 :=
    round1_eq_of _ 1207 (by norm_num) (by norm_num)
  simp only [hr1]
  norm_num

/-- C2 (amended): for every date sequence of length at least 2 and every
reference date that is **not earlier than any purchase date**, all five
scores (and the stored rounded consistency, recency and confidence) lie in
`[0, 100]`. (Without the reference-date condition the recency score can
exceed 100, see the counterexample.) -/
theorem C2_scores_bounded (dates : List ℤ) (ref : ℤ) (h2 : 2 ≤ dates.length)
    (href : ∀ d ∈ dates, d ≤ ref) :
    (0 ≤ consistencyScore dates ∧ consistencyScore dates ≤ 100)
      ∧ (0 ≤ recencyScore dates ref ∧ recencyScore dates ref ≤ 100)
      ∧ (0 ≤ purchaseCountScore dates ∧ purchaseCountScore dates ≤ 100)
      ∧ (0 ≤ trendStabilityScore dates ∧ trendStabilityScore dates ≤ 100)
      ∧ (0 ≤ confidence dates ref ∧ confidence dates ref ≤ 100)
      ∧ ∀ s : ItemStats, calculate_item_statistics dates ref = some s →
          (0 ≤ s.consistency_score ∧ s.consistency_score ≤ 100)
          ∧ (0 ≤ s.recency_score ∧ s.recency_score ≤ 100)
          ∧ (0 ≤ s.confidence ∧ s.confidence ≤ 100) := by
  have hne : dates ≠ [] := by
    intro h
    rw [h] at h2
    simp at h2
  have hlast : lastDate dates ≤ ref := href _ (lastDate_mem hne)
  have hdays : 0 ≤ daysSinceLast dates ref := by
    rw [daysSinceLast]
    omega
  have hrec100 := recencyScore_le_of_nonneg hdays
  have hconf := confidence_mem_of hrec100
  refine ⟨consistencyScore_mem dates, ⟨recencyScore_nonneg dates ref, hrec100⟩,
    purchaseCountScore_mem dates, trendStabilityScore_mem dates, hconf, ?_⟩
  intro s hs
  rw [calculate_eq_some ref h2] at hs
  have heq := Option.some_inj.mp hs
  rw [← heq]
  obtain ⟨hc0, hc1⟩ := consistencyScore_mem dates
  exact ⟨round1_mem_Icc hc0 hc1,
    round1_mem_Icc (recencyScore_nonneg dates ref) hrec100,
    round1_mem_Icc hconf.1 hconf.2⟩

/-- C2 witness: the amended theorem applied at `[0, 7]` with reference date
`7` (the most recent purchase). -/
theorem C2_witness :
    (2 ≤ ([0, 7] : List ℤ).length) ∧ (∀ d ∈ ([0, 7] : List ℤ), d ≤ 7)
      ∧ (0 ≤ confidence [0, 7] 7 ∧ confidence [0, 7] 7 ≤ 100) :=
  ⟨by decide, by decide,
    (C2_scores_bounded [0, 7] 7 (by decide) (by decide)).2.2.2.2.1⟩

/-! ## C5 -/

/-- C5 counterexample: in the batch analyzer the reference date is the
dataset-global most recent date. With customer `A` purchasing on days 0 and 1
and customer `B` on day 31, the reference used for `A`'s recency computations
is 31 (days_since_last = 30), not the maximum of `A`'s own events (1, which
would give days_since_last = 0). -/
theorem C5_counterexample :
    batchReferenceDate? [("A", [("m", 0), ("m", 1)]), ("B", [("e", 31)])]
        = some 31
      ∧ referenceDate? [("m", 0), ("m", 1)] = some 1
      ∧ (31 : ℤ) ≠ 1
      ∧ (calculate_item_statistics [0, 1] 31).map ItemStats.days_since_last
          = some 30
      ∧ (calculate_item_statistics [0, 1] 1).map ItemStats.days_since_last
          = some 0 := by
  have hsort : sortDates [0, 1] = [0, 1] := sortDates_of_sorted (by decide)
  have hlast : lastDate [0, 1] = 1 := by
    rw [lastDate, hsort]
    rfl
  refine ⟨by decide, by decide, by decide, ?_, ?_⟩
  · rw [calculate_eq_some 31 (by decide), Option.map_some']
    simp only [daysSinceLast, hlast]
    norm_num
  · rw [calculate_eq_some 1 (by decide), Option.map_some']
    simp only [daysSinceLast, hlast]
    norm_num

/-- C5 (amended): the per-customer path (`_run_frequency_analysis`) uses as
reference date the maximum timestamp over that one customer's events (it is
attained by one of the customer's events and bounds them all, and it exists
whenever the customer has events); the batch analyzer instead anchors every
customer to the maximum timestamp across **all** customers of the dataset,
which may be attained by a different customer's event. -/
theorem C5_reference_is_max (events : List (String × ℤ)) (m : ℤ)
    (customers : List (String × List (String × ℤ))) (mb : ℤ) :
    (referenceDate? events = some m →
      (∃ e ∈ events, e.2 = m) ∧ ∀ e ∈ events, e.2 ≤ m)
      ∧ (events ≠ [] → ∃ k, referenceDate? events = some k)
      ∧ (batchReferenceDate? customers = some mb →
        (∃ c ∈ customers, ∃ e ∈ c.2, e.2 = mb)
          ∧ ∀ c ∈ customers, ∀ e ∈ c.2, e.2 ≤ mb) := by
  refine ⟨?_, ?_, ?_⟩
  · intro h
    obtain ⟨hmem, hbound⟩ := maxDate_spec h
    constructor
    · obtain ⟨e, he, hem⟩ := List.mem_map.mp hmem
      exact ⟨e, he, hem⟩
    · intro e he
      exact hbound e.2 (List.mem_map_of_mem Prod.snd he)
  · intro hne
    apply maxDate_isSome
    simpa using hne
  · intro h
    obtain ⟨hmem, hbound⟩ := maxDate_spec h
    constructor
    · obtain ⟨e, he, hem⟩ := List.mem_map.mp hmem
      obtain ⟨l, hl, hel⟩ := List.mem_flatten.mp he
      obtain ⟨c, hc, hcl⟩ := List.mem_map.mp hl
      exact ⟨c, hc, e, by rw [hcl]; exact hel, hem⟩
    · intro c hc e he
      apply hbound
      apply List.mem_map_of_mem Prod.snd
      apply List.mem_flatten.mpr
      exact ⟨c.2, List.mem_map_of_mem Prod.snd hc, he⟩

/-- C5 witness: a one-event customer — the reference date is that event's
timestamp. -/
theorem C5_witness :
    referenceDate? [("milk", 3)] = some 3
      ∧ ∀ e ∈ ([("milk", 3)] : List (String × ℤ)), e.2 ≤ 3 :=
  ⟨by decide,
    ((C5_reference_is_max [("milk", 3)] 3 [("A", [("milk", 3)])] 3).1
      (by decide)).2⟩

/-! ## C7 -/

/-- C7: with at least three intervals, the slope computed by
`calculate_item_statistics` is the ordinary-least-squares slope — together
with its intercept it minimises the sum of squared residuals `sse`, and it is
the unique minimising slope; the trend label is "increasing frequency"
exactly for slope < -2, "decreasing frequency" exactly for slope > 2 and
"stable" otherwise. With fewer than three intervals the slope is 0 and the
label is "insufficient data". -/
theorem C7_trend_ols (dates : List ℤ) :
    (3 ≤ (intervals dates).length →
      (∀ a b : ℝ,
          sse (intervals dates)
            (mean (intervals dates)
              - trendSlope dates * xMean (intervals dates).length)
            (trendSlope dates)
          ≤ sse (intervals dates) a b)
        ∧ (∀ a b : ℝ,
            sse (intervals dates) a b
              ≤ sse (intervals dates)
                  (mean (intervals dates)
                    - trendSlope dates * xMean (intervals dates).length)
                  (trendSlope dates)
              → b = trendSlope dates)
        ∧ (trendLabel dates = "increasing frequency" ↔ trendSlope dates < -2)
        ∧ (trendLabel dates = "decreasing frequency" ↔ 2 < trendSlope dates)
        ∧ (trendLabel dates = "stable" ↔
            (-2 ≤ trendSlope dates ∧ trendSlope dates ≤ 2)))
      ∧ ((intervals dates).length < 3 →
          trendSlope dates = 0 ∧ trendLabel dates = "insufficient data") := by
  constructor
  · intro h3
    have hn : (intervals dates).length ≠ 0 := by omega
    have hden : 0 < trendDen (intervals dates) := trendDen_pos (by omega)
    have hslope : trendSlope dates
        = trendNum (intervals dates) / trendDen (intervals dates) :=
      trendSlope_eq h3
    have hnum : trendNum (intervals dates)
        = trendSlope dates * trendDen (intervals dates) := by
      rw [hslope]
      field_simp
    have key : ∀ a b : ℝ, sse (intervals dates) a b
        = (∑ i in Finset.range (intervals dates).length,
              (yval (intervals dates) i - mean (intervals dates)) ^ 2)
          - 2 * b * trendNum (intervals dates)
          + b ^ 2 * trendDen (intervals dates)
          + ((intervals dates).length : ℝ)
            * (mean (intervals dates) - a
                - b * xMean (intervals dates).length) ^ 2 :=
      fun a b => sse_expand (intervals dates) hn a b
    have hstar : sse (intervals dates)
        (mean (intervals dates) - trendSlope dates * xMean (intervals dates).length)
        (trendSlope dates)
        = (∑ i in Finset.range (intervals dates).length,
              (yval (intervals dates) i - mean (intervals dates)) ^ 2)
          - trendSlope dates ^ 2 * trendDen (intervals dates) := by
      rw [key, hnum]
      ring
    have hlabel : trendLabel dates
        = (if trendSlope dates < -2 then "increasing frequency"
           else if 2 < trendSlope dates then "decreasing frequency"
           else "stable") := by
      rw [trendLabel, if_pos h3]
    refine ⟨?_, ?_, ?_, ?_, ?_⟩
    · intro a b
      rw [key a b, hstar, hnum]
      have h1 : 0 ≤ ((intervals dates).length : ℝ)
          * (mean (intervals dates) - a
              - b * xMean (intervals dates).length) ^ 2 := by positivity
      nlinarith [sq_nonneg (b - trendSlope dates), hden]
    · intro a b hle
      rw [key a b, hstar, hnum] at hle
      have h1 : 0 ≤ ((intervals dates).length : ℝ)
          * (mean (intervals dates) - a
              - b * xMean (intervals dates).length) ^ 2 := by positivity
      have hsq : (b - trendSlope dates) ^ 2 = 0 := by
        have hle2 : trendDen (intervals dates) * (b - trendSlope dates) ^ 2 ≤ 0 := by
          nlinarith
        have := sq_nonneg (b - trendSlope dates)
        nlinarith
      have hb := sq_eq_zero_iff.mp hsq
      linarith [sub_eq_zero.mp hb]
    · rw [hlabel]
      by_cases hlt : trendSlope dates < -2
      · rw [if_pos hlt]
        simp [hlt]
      · rw [if_neg hlt]
        by_cases hgt : 2 < trendSlope dates
        · rw [if_pos hgt]
          constructor
          · intro h
            exact absurd h (by decide)
          · intro h
            exact absurd h hlt
        · rw [if_neg hgt]
          constructor
          · intro h
            exact absurd h (by decide)
          · intro h
            exact absurd h hlt
    · rw [hlabel]
      by_cases hlt : trendSlope dates < -2
      · rw [if_pos hlt]
        constructor
        · intro h
          exact absurd h (by decide)
        · intro h
          linarith
      · rw [if_neg hlt]
        by_cases hgt : 2 < trendSlope dates
        · rw [if_pos hgt]
          simp [hgt]
        · rw [if_neg hgt]
          constructor
          · intro h
            exact absurd h (by decide)
          · intro h
            exact absurd h hgt
    · rw [hlabel]
      by_cases hlt : trendSlope dates < -2
      · rw [if_pos hlt]
        constructor
        · intro h
          exact absurd h (by decide)
        · rintro ⟨h, _⟩
          linarith
      · rw [if_neg hlt]
        by_cases hgt : 2 < trendSlope dates
        · rw [if_pos hgt]
          constructor
          · intro h
            exact absurd h (by decide)
          · rintro ⟨_, h⟩
            linarith
        · rw [if_neg hgt]
          constructor
          · intro _
            exact ⟨by linarith, by linarith⟩
          · intro _
            rfl
  · intro hlt
    constructor
    · rw [trendSlope, if_neg (by omega)]
    · rw [trendLabel, if_neg (by omega)]

/-- C7 witness: `[0, 2, 6, 12]` has three intervals; the computed slope and
intercept minimise the residuals against the line `0 + 0 * i`. -/
theorem C7_witness :
    3 ≤ (intervals [0, 2, 6, 12]).length
      ∧ sse (intervals [0, 2, 6, 12])
          (mean (intervals [0, 2, 6, 12])
            - trendSlope [0, 2, 6, 12] * xMean (intervals [0, 2, 6, 12]).length)
          (trendSlope [0, 2, 6, 12])
        ≤ sse (intervals [0, 2, 6, 12]) 0 0 := by
  have h3 : 3 ≤ (intervals [0, 2, 6, 12]).length := by
    rw [intervals_length]
    decide
  exact ⟨h3, ((C7_trend_ols [0, 2, 6, 12]).1 h3).1 0 0⟩

/-! ## C6 -/

lemma confDesc_trans (a b c : String × ItemStats) (hab : confDesc a b = true)
    (hbc : confDesc b c = true) : confDesc a c = true := by
  simp only [confDesc, decide_eq_true_eq] at *
  exact le_trans hbc hab

lemma confDesc_total (a b : String × ItemStats) :
    (confDesc a b || confDesc b a) = true := by
  simp only [confDesc, Bool.or_eq_true, decide_eq_true_eq]
  exact le_total b.2.confidence a.2.confidence

lemma mem_recurringItems {groups : List (String × List ℤ)} {minP : ℕ}
    {minC : ℝ} {ref : ℤ} {e : String × ItemStats} :
    e ∈ recurringItems groups minP minC ref ↔
      ∃ g ∈ groups, g.1 = e.1 ∧ minP ≤ g.2.length
        ∧ calculate_item_statistics g.2 ref = some e.2
        ∧ minC ≤ e.2.confidence := by
  constructor
  · intro he
    obtain ⟨g, hg, hfe⟩ := List.mem_filterMap.mp he
    refine ⟨g, hg, ?_⟩
    split at hfe
    · split at hfe
      · rename_i s heq
        split at hfe
        · rename_i hconf
          have he2 : (g.1, s) = e := Option.some_inj.mp hfe
          refine ⟨by rw [← he2], by assumption, by rw [heq, ← he2], ?_⟩
          rw [← he2]
          exact hconf
        · exact Option.noConfusion hfe
      · exact Option.noConfusion hfe
    · exact Option.noConfusion hfe
  · rintro ⟨g, hg, h1, hlen, hstats, hconf⟩
    apply List.mem_filterMap.mpr
    refine ⟨g, hg, ?_⟩
    simp only [if_pos hlen, hstats, if_pos hconf, h1, Prod.mk.eta]

/-- C6: the per-customer report pipeline. The displayed list has at most 10
entries; the sorted list (and hence the report) is pairwise descending in
stored confidence; every report entry comes from a qualifying group
(`count >= min_purchases`, statistics present, stored confidence at least
`min_confidence`); conversely every qualifying group appears in the sorted
list; when at most 10 items qualify, the report is exactly the qualifying
list (up to the sort's reordering); and the sort is stable: any pair already
in descending-or-equal confidence order keeps its relative order, so ties
keep the first-seen order of the grouping step. -/
theorem C6_report_pipeline (groups : List (String × List ℤ))
    (minP : ℕ) (minC : ℝ) (ref : ℤ) :
    (topRecommendations groups minP minC ref).length ≤ 10
      ∧ (sortedRecurringItems groups minP minC ref).Pairwise
          (fun a b => b.2.confidence ≤ a.2.confidence)
      ∧ (topRecommendations groups minP minC ref).Pairwise
          (fun a b => b.2.confidence ≤ a.2.confidence)
      ∧ (∀ e ∈ topRecommendations groups minP minC ref,
          ∃ g ∈ groups, g.1 = e.1 ∧ minP ≤ g.2.length
            ∧ calculate_item_statistics g.2 ref = some e.2
            ∧ minC ≤ e.2.confidence)
      ∧ (∀ g ∈ groups, ∀ s : ItemStats, minP ≤ g.2.length →
          calculate_item_statistics g.2 ref = some s → minC ≤ s.confidence →
          (g.1, s) ∈ sortedRecurringItems groups minP minC ref)
      ∧ ((recurringItems groups minP minC ref).length ≤ 10 →
          (topRecommendations groups minP minC ref).Perm
            (recurringItems groups minP minC ref))
      ∧ (∀ a b : String × ItemStats, b.2.confidence ≤ a.2.confidence →
          [a, b].Sublist (recurringItems groups minP minC ref) →
          [a, b].Sublist (sortedRecurringItems groups minP minC ref)) := by
  have hsorted : (sortedRecurringItems groups minP minC ref).Pairwise
      (fun a b => b.2.confidence ≤ a.2.confidence) := by
    have h := List.sorted_mergeSort confDesc_trans confDesc_total
      (recurringItems groups minP minC ref)
    rw [sortedRecurringItems]
    exact h.imp (fun hab => by simpa [confDesc] using hab)
  have htake : topRecommendations groups minP minC ref
      = (sortedRecurringItems groups minP minC ref).take 10 := rfl
  refine ⟨?_, hsorted, ?_, ?_, ?_, ?_, ?_⟩
  · rw [htake, List.length_take]
    exact min_le_left _ _
  · exact hsorted.sublist (List.take_sublist _ _)
  · intro e he
    have hmem : e ∈ sortedRecurringItems groups minP minC ref :=
      (List.take_sublist _ _).mem he
    rw [sortedRecurringItems, List.mem_mergeSort] at hmem
    exact mem_recurringItems.mp hmem
  · intro g hg s hlen hstats hconf
    rw [sortedRecurringItems, List.mem_mergeSort]
    exact mem_recurringItems.mpr ⟨g, hg, rfl, hlen, hstats, hconf⟩
  · intro hle
    have hlen : (sortedRecurringItems groups minP minC ref).length ≤ 10 := by
      rw [sortedRecurringItems, List.length_mergeSort]
      exact hle
    rw [htake, List.take_of_length_le hlen, sortedRecurringItems]
    exact List.mergeSort_perm _ _
  · intro a b hab hsub
    rw [sortedRecurringItems]
    exact List.pair_sublist_mergeSort confDesc_trans confDesc_total
      (by simpa [confDesc] using hab) hsub

/-- C6 witness: a single qualifying group — the report is exactly the
qualifying list. -/
theorem C6_witness :
    (recurringItems [] 3 50 0).length ≤ 10
      ∧ (topRecommendations [] 3 50 0).Perm (recurringItems [] 3 50 0) := by
  have hlen : (recurringItems [] 3 50 0).length ≤ 10 := by
    rw [recurringItems, List.filterMap_nil]
    decide
  exact ⟨hlen, (C6_report_pipeline [] 3 50 0).2.2.2.2.2.1 hlen⟩

/-! ## C10 -/

lemma c10_intervals : intervals [0, 2, 6, 12] = [2, 4, 6] := by
  rw [intervals, sortDates_of_sorted (by decide)]
  rfl

lemma c10_mean : mean [2, 4, 6] = 4 := by
  rw [mean]
  norm_num [List.sum_cons, List.sum_nil]

lemma c10_avg : avgInterval [0, 2, 6, 12] = 4 := by
  rw [avgInterval, c10_intervals, c10_mean]

lemma c10_std : stdDevOf [0, 2, 6, 12] = 2 := by
  rw [stdDevOf, c10_intervals, if_pos (by norm_num), sampleStdDev, c10_mean]
  have hsum : ((([2, 4, 6] : List ℤ).map (fun v => ((v : ℝ) - 4) ^ 2)).sum
      / ((([2, 4, 6] : List ℤ).length : ℝ) - 1)) = 4 := by
    norm_num [List.map_cons, List.map_nil, List.sum_cons, List.sum_nil]
  rw [hsum, show (4 : ℝ) = 2 ^ 2 by norm_num,
    Real.sqrt_sq (by norm_num : (0 : ℝ) ≤ 2)]

lemma c10_consistency : consistencyScore [0, 2, 6, 12] = 50 := by
  have hcv : coefficientOfVariation [0, 2, 6, 12] = 50 := by
    rw [coefficientOfVariation, if_pos (by rw [c10_avg]; norm_num), c10_std,
      c10_avg]
    norm_num
  rw [consistencyScore, hcv]
  rw [show min (100 : ℝ) (100 - 50) = 50 by norm_num [min_def],
    show max (0 : ℝ) 50 = 50 by norm_num [max_def]]

lemma c10_xmean : xMean 3 = 1 := by
  rw [xMean, Finset.sum_range_succ, Finset.sum_range_succ,
    Finset.sum_range_succ, Finset.sum_range_zero]
  norm_num

lemma c10_slope : trendSlope [0, 2, 6, 12] = 2 := by
  have h3 : 3 ≤ (intervals [0, 2, 6, 12]).length := by
    rw [c10_intervals]
    norm_num
  rw [trendSlope_eq h3, c10_intervals]
  have hnum : trendNum [2, 4, 6] = 4 := by
    rw [trendNum]
    norm_num [Finset.sum_range_succ, Finset.sum_range_zero, c10_xmean,
      c10_mean, yval, List.getD_cons_zero, List.getD_cons_succ]
  have hden : trendDen [2, 4, 6] = 2 := by
    rw [trendDen]
    norm_num [Finset.sum_range_succ, Finset.sum_range_zero, c10_xmean]
  rw [hnum, hden]
  norm_num

lemma c10_tss : trendStabilityScore [0, 2, 6, 12] = 90 := by
  rw [trendStabilityScore, c10_slope]
  rw [show |(2 : ℝ)| = 2 from abs_of_pos (by norm_num)]
  rw [show max (0 : ℝ) (100 - 2 * 5) = 90 by norm_num [max_def]]

lemma c10_rec : recencyScore [0, 2, 6, 12] 14 = 296 / 3 := by
  have hlast : lastDate [0, 2, 6, 12] = 12 := by
    rw [lastDate, sortDates_of_sorted (by decide)]
    rfl
  have hdays : daysSinceLast [0, 2, 6, 12] 14 = 2 := by
    rw [daysSinceLast, hlast]
    norm_num
  rw [recencyScore, hdays]
  have hz : (100 : ℝ) - ((2 : ℤ) : ℝ) / 30 * 20 = 296 / 3 := by
    push_cast
    norm_num
  rw [hz, max_eq_right (by norm_num)]

lemma c10_pcs : purchaseCountScore [0, 2, 6, 12] = 40 := by
  rw [purchaseCountScore]
  norm_num [List.length_cons, List.length_nil, min_def]

lemma c10_conf : confidence [0, 2, 6, 12] 14 = 197 / 3 := by
  rw [confidence, c10_consistency, c10_rec, c10_pcs, c10_tss]
  norm_num

lemma c10_round : round1 ((197 : ℝ) / 3) = 657 / 10 := by
  have h := round1_eq_of ((197 : ℝ) / 3) 657 (by norm_num) (by norm_num)
  rw [h]
  norm_num

/-- C10: the aggregator filters (and sorts) on the *stored, rounded*
confidence. At dates `[0, 2, 6, 12]` with reference 14 the full-precision
confidence is `197/3 ≈ 65.667`, strictly below the threshold `65.7`, but the
stored value `round(confidence, 1) = 65.7` reaches it, so the item is
included in the report. -/
theorem C10_rounded_confidence_gate :
    confidence [0, 2, 6, 12] 14 < 657 / 10
      ∧ (calculate_item_statistics [0, 2, 6, 12] 14).map ItemStats.confidence
          = some (657 / 10 : ℝ)
      ∧ ∃ s : ItemStats,
          ("granola", s) ∈ recurringItems [("granola", [0, 2, 6, 12])] 3
            (657 / 10) 14 := by
  have hlt : confidence [0, 2, 6, 12] 14 < 657 / 10 := by
    rw [c10_conf]
    norm_num
  have hcalc := @calculate_eq_some [0, 2, 6, 12] 14 (by decide)
  have hstored : round1 (confidence [0, 2, 6, 12] 14) = 657 / 10 := by
    rw [c10_conf, c10_round]
  refine ⟨hlt, ?_, ?_⟩
  · rw [hcalc, Option.map_some']
    simp only [hstored]
  · refine ⟨_, mem_recurringItems.mpr
      ⟨("granola", [0, 2, 6, 12]), List.mem_singleton_self _, rfl,
        by decide, hcalc, ?_⟩⟩
    simp only [hstored]
    exact le_rfl
